import Mathlib

/-!
Shallow embedding of the catalog reconciliation and identifier
normalization logic of the my-library frontend, together with proofs of
the specified properties.

JavaScript strings are modelled as `List Char`.  The embedded functions
mirror, definition by definition:

* `src/frontend/src/app/library/register/page.tsx`
  (`normalizeScannedText`, `toNormalizedIsbn`, `isNormalizedIsbn`,
  `extractNormalizedIsbn`, `submitRegisterRequest`),
* `src/frontend/src/app/library/[seriesId]/SeriesCandidatesSection.tsx`
  (`pickPreferredSeriesCandidate`, `mergeCandidatesByIsbn`),
* `src/frontend/src/app/library/[seriesId]/RegisteredVolumesSection.tsx`
  (`sortSeriesVolumes`, `mergeSeriesVolume`),
* `src/frontend/src/components/search/SearchTabPage.tsx`
  (`getCandidateKey`, `markCandidatesOwnedByIsbn`, `registerCandidate`).

`String.prototype.normalize("NFKC")` is modelled per character on the
character repertoire relevant to identifier scanning (fullwidth digits,
the fullwidth hyphen-minus and the ideographic space); it is the
identity elsewhere.  `String.prototype.localeCompare` is modelled as
lexicographic comparison of code points.  JavaScript regular-expression
matching for the literal pattern of the source
(match of `[0-9][0-9\-\s]{11,30}[0-9]` with the global flag) is embedded
as an executable leftmost, greedy, backtracking scanner.
-/

/-- Character class of `[0-9]` in the source's regular expressions. -/
def isDigitChar (c : Char) : Bool :=
  '0' ≤ c && c ≤ '9'

/-- Character class of `\s` (JavaScript whitespace) restricted to the
whitespace characters this development models; also the class of
characters removed by `String.prototype.trim`. -/
def isSpaceChar (c : Char) : Bool :=
  c = ' ' || c = '\t' || c = '\n' || c = '\r' ||
  c = '\x0b' || c = '\x0c' || c = '　'

/-- Character class of the regex body `[0-9\-\s]`. -/
def isTokenBodyChar (c : Char) : Bool :=
  isDigitChar c || c = '-' || isSpaceChar c

/-- Model of `String.prototype.normalize("NFKC")` restricted to one
character: fullwidth digits fold to ASCII digits, the fullwidth
hyphen-minus folds to the ASCII hyphen, the ideographic space folds to
the ASCII space; all other characters are left unchanged. -/
def nfkcChar (c : Char) : Char :=
  if 0xFF10 ≤ c.toNat ∧ c.toNat ≤ 0xFF19 then Char.ofNat (c.toNat - 0xFF10 + 0x30)
  else if c.toNat = 0xFF0D then '-'
  else if c.toNat = 0x3000 then ' '
  else c

/-- Model of `String.prototype.trim`: drop leading and trailing
whitespace characters. -/
def trimChars (l : List Char) : List Char :=
  ((l.dropWhile isSpaceChar).reverse.dropWhile isSpaceChar).reverse

/-- Embedding of `normalizeScannedText` (register page): NFKC
normalization followed by trimming. -/
def normalizeScannedText (rawText : List Char) : List Char :=
  trimChars (rawText.map nfkcChar)

/-- Model of `.replaceAll("-", "")`. -/
def removeHyphens (l : List Char) : List Char :=
  l.filter (fun c => c != '-')

/-- Model of `.replace(/\s+/g, "")`. -/
def removeWhitespace (l : List Char) : List Char :=
  l.filter (fun c => ! isSpaceChar c)

/-- Embedding of `isNormalizedIsbn` (register page): the test
`/^[0-9]{13}$/.test(value)`. -/
def isNormalizedIsbn (value : List Char) : Bool :=
  value.length = 13 && value.all isDigitChar

/-- Embedding of `toNormalizedIsbn` (register page). -/
def toNormalizedIsbn (rawText : List Char) : Option (List Char) :=
  let normalizedText := normalizeScannedText rawText
  let compactText := removeWhitespace (removeHyphens normalizedText)
  if isNormalizedIsbn compactText then some compactText else none

/-- Backtracking step of the regex `[0-9][0-9\-\s]{11,30}[0-9]` at a
fixed match position: given the text after the leading digit and the
largest allowed length of the `{11,30}` part, return the largest
`k ≥ 11` not exceeding it such that the character at index `k` (the
closing `[0-9]`) is a digit. -/
def findTokenEnd (rest : List Char) : Nat → Option Nat
  | 0 => none
  | Nat.succ k =>
    if Nat.succ k < 11 then none
    else if (rest.get? (Nat.succ k)).any isDigitChar then some (Nat.succ k)
    else findTokenEnd rest k

/-- One match attempt of the regex at the head of `l` (which must start
with a digit): greedy run of body characters capped at 30, then
backtracking via `findTokenEnd`.  Returns the length of the match. -/
def matchTokenLength (l : List Char) : Option Nat :=
  match l with
  | [] => none
  | _ :: rest =>
    match findTokenEnd rest (min (rest.takeWhile isTokenBodyChar).length 30) with
    | some k => some (k + 2)
    | none => none

/-- Fuelled scanner for `normalizedScanText.match(/[0-9][0-9\-\s]{11,30}[0-9]/g)`:
leftmost matches, non-overlapping, in order of appearance. -/
def scanTokensAux : Nat → List Char → List (List Char)
  | 0, _ => []
  | _, [] => []
  | Nat.succ fuel, c :: rest =>
    if isDigitChar c then
      match matchTokenLength (c :: rest) with
      | some n => (c :: rest).take n :: scanTokensAux fuel ((c :: rest).drop n)
      | none => scanTokensAux fuel rest
    else scanTokensAux fuel rest

/-- All matches of `/[0-9][0-9\-\s]{11,30}[0-9]/g` in `l`, in order of
appearance. -/
def scanIsbnTokens (l : List Char) : List (List Char) :=
  scanTokensAux l.length l

/-- Embedding of `extractNormalizedIsbn` (register page): direct
normalization first, then the first token that normalizes. -/
def extractNormalizedIsbn (scanText : List Char) : Option (List Char) :=
  match toNormalizedIsbn scanText with
  | some directMatchIsbn => some directMatchIsbn
  | none =>
    let normalizedScanText := normalizeScannedText scanText
    let possibleIsbnTokens := scanIsbnTokens normalizedScanText
    possibleIsbnTokens.findSome? toNormalizedIsbn

/-- The canonical identifier used by the spec's examples. -/
def sampleIsbn : List Char :=
  ['9', '7', '8', '4', '0', '8', '8', '8', '3', '6', '4', '4', '0']

/-! ### Character-level lemmas -/

theorem charEq_iff_toNat (c d : Char) : c = d ↔ c.toNat = d.toNat := by
  constructor
  · intro h; rw [h]
  · intro h
    have h2 := congrArg Char.ofNat h
    simpa using h2

theorem charLe_iff_toNat (c d : Char) : c ≤ d ↔ c.toNat ≤ d.toNat := Iff.rfl

theorem isDigitChar_iff (c : Char) :
    isDigitChar c = true ↔ 48 ≤ c.toNat ∧ c.toNat ≤ 57 := by
  simp [isDigitChar, charLe_iff_toNat c '9', charLe_iff_toNat '0' c]

theorem charToNat_ofNat (n : Nat) (h : n < 0xD800) : (Char.ofNat n).toNat = n := by
  rw [Char.ofNat, dif_pos (Or.inl (by omega))]
  rfl

theorem nfkcChar_of_digit (c : Char) (h : isDigitChar c = true) : nfkcChar c = c := by
  rw [isDigitChar_iff] at h
  unfold nfkcChar
  rw [if_neg (by omega), if_neg (by omega), if_neg (by omega)]

theorem isSpaceChar_iff (c : Char) :
    isSpaceChar c = true ↔
      (c.toNat = 32 ∨ c.toNat = 9 ∨ c.toNat = 10 ∨ c.toNat = 13 ∨
       c.toNat = 11 ∨ c.toNat = 12 ∨ c.toNat = 0x3000) := by
  simp [isSpaceChar, charEq_iff_toNat c ' ', charEq_iff_toNat c '\t',
    charEq_iff_toNat c '\n', charEq_iff_toNat c '\r',
    charEq_iff_toNat c '\x0b', charEq_iff_toNat c '\x0c', charEq_iff_toNat c '　']
  tauto

theorem isSpaceChar_of_digit (c : Char) (h : isDigitChar c = true) :
    isSpaceChar c = false := by
  rw [isDigitChar_iff] at h
  rw [← Bool.not_eq_true, isSpaceChar_iff]
  omega

theorem hyphen_ne_of_digit (c : Char) (h : isDigitChar c = true) : c ≠ '-' := by
  rw [isDigitChar_iff] at h
  intro he; rw [charEq_iff_toNat] at he
  revert he
  have hv : ('-' : Char).toNat = 45 := by decide
  omega

theorem isSpaceChar_nfkcChar (c : Char) : isSpaceChar (nfkcChar c) = isSpaceChar c := by
  unfold nfkcChar
  by_cases h1 : 0xFF10 ≤ c.toNat ∧ c.toNat ≤ 0xFF19
  · rw [if_pos h1]
    have hd : (Char.ofNat (c.toNat - 0xFF10 + 0x30)).toNat = c.toNat - 0xFF10 + 0x30 :=
      charToNat_ofNat _ (by omega)
    have hs1 : isSpaceChar (Char.ofNat (c.toNat - 0xFF10 + 0x30)) = false := by
      rw [← Bool.not_eq_true, isSpaceChar_iff, hd]
      omega
    have hs2 : isSpaceChar c = false := by
      rw [← Bool.not_eq_true, isSpaceChar_iff]
      omega
    rw [hs1, hs2]
  · rw [if_neg h1]
    by_cases h2 : c.toNat = 0xFF0D
    · rw [if_pos h2]
      have hs2 : isSpaceChar c = false := by
        rw [← Bool.not_eq_true, isSpaceChar_iff]
        omega
      rw [hs2]; decide
    · rw [if_neg h2]
      by_cases h3 : c.toNat = 0x3000
      · rw [if_pos h3]
        have hs2 : isSpaceChar c = true := by rw [isSpaceChar_iff]; omega
        rw [hs2]; decide
      · rw [if_neg h3]

/-! ### Trimming and filtering lemmas -/

theorem trimChars_decomp (l : List Char) :
    ∃ p s, l = p ++ trimChars l ++ s ∧
      (∀ c ∈ p, isSpaceChar c = true) ∧ (∀ c ∈ s, isSpaceChar c = true) := by
  refine ⟨l.takeWhile isSpaceChar,
    ((l.dropWhile isSpaceChar).reverse.takeWhile isSpaceChar).reverse, ?_, ?_, ?_⟩
  · conv_lhs => rw [← List.takeWhile_append_dropWhile isSpaceChar l]
    rw [List.append_assoc]
    congr 1
    rw [trimChars]
    conv_lhs => rw [← List.reverse_reverse (l.dropWhile isSpaceChar),
      ← List.takeWhile_append_dropWhile isSpaceChar
        (l.dropWhile isSpaceChar).reverse]
    rw [List.reverse_append]
  · intro c hc
    exact List.mem_takeWhile_imp hc
  · intro c hc
    rw [List.mem_reverse] at hc
    exact List.mem_takeWhile_imp hc

theorem filter_trimChars (P : Char → Bool)
    (hP : ∀ c, isSpaceChar c = true → P c = false) (l : List Char) :
    (trimChars l).filter P = l.filter P := by
  obtain ⟨p, s, hl, hp, hs⟩ := trimChars_decomp l
  have hp0 : p.filter P = [] :=
    List.filter_eq_nil_iff.mpr (fun c hc => by simp [hP c (hp c hc)])
  have hs0 : s.filter P = [] :=
    List.filter_eq_nil_iff.mpr (fun c hc => by simp [hP c (hs c hc)])
  conv_rhs => rw [hl]
  rw [List.filter_append, List.filter_append, hp0, hs0]
  simp

theorem filter_map_nfkc_trimChars (P : Char → Bool)
    (hP : ∀ c, isSpaceChar c = true → P c = false) (l : List Char) :
    ((trimChars l).map nfkcChar).filter P = (l.map nfkcChar).filter P := by
  obtain ⟨p, s, hl, hp, hs⟩ := trimChars_decomp l
  have hp0 : (p.map nfkcChar).filter P = [] := by
    refine List.filter_eq_nil_iff.mpr (fun c hc => ?_)
    rw [List.mem_map] at hc
    obtain ⟨a, ha, rfl⟩ := hc
    simp [hP _ ((isSpaceChar_nfkcChar a).trans (hp a ha))]
  have hs0 : (s.map nfkcChar).filter P = [] := by
    refine List.filter_eq_nil_iff.mpr (fun c hc => ?_)
    rw [List.mem_map] at hc
    obtain ⟨a, ha, rfl⟩ := hc
    simp [hP _ ((isSpaceChar_nfkcChar a).trans (hs a ha))]
  conv_rhs => rw [hl]
  rw [List.map_append, List.map_append, List.filter_append, List.filter_append,
    hp0, hs0]
  simp

/-- The predicate kept by the hyphen and whitespace removal steps. -/
def compactKeep (c : Char) : Bool :=
  (! isSpaceChar c) && (c != '-')

theorem removeWhitespace_removeHyphens (x : List Char) :
    removeWhitespace (removeHyphens x) = x.filter compactKeep := by
  rw [removeWhitespace, removeHyphens, List.filter_filter]
  rfl

theorem compactKeep_of_space (c : Char) (h : isSpaceChar c = true) :
    compactKeep c = false := by
  simp [compactKeep, h]

/-- The pipeline in the specification's order: trim first, then NFKC
width folding, then hyphen removal, then whitespace removal. -/
def specNormalizePipeline (l : List Char) : List Char :=
  removeWhitespace (removeHyphens ((trimChars l).map nfkcChar))

theorem compactText_eq_specNormalizePipeline (l : List Char) :
    removeWhitespace (removeHyphens (normalizeScannedText l)) =
      specNormalizePipeline l := by
  rw [specNormalizePipeline, removeWhitespace_removeHyphens,
    removeWhitespace_removeHyphens, normalizeScannedText,
    filter_trimChars compactKeep compactKeep_of_space,
    filter_map_nfkc_trimChars compactKeep compactKeep_of_space]

theorem isNormalizedIsbn_iff (s : List Char) :
    isNormalizedIsbn s = true ↔ (s.length = 13 ∧ ∀ c ∈ s, isDigitChar c = true) := by
  simp [isNormalizedIsbn, List.all_eq_true]

theorem toNormalizedIsbn_eq_some_iff (l s : List Char) :
    toNormalizedIsbn l = some s ↔
      (specNormalizePipeline l = s ∧ isNormalizedIsbn s = true) := by
  rw [toNormalizedIsbn]
  simp only [compactText_eq_specNormalizePipeline]
  by_cases h : isNormalizedIsbn (specNormalizePipeline l) = true
  · rw [if_pos h]
    constructor
    · intro h2
      injection h2 with h2
      subst h2
      exact ⟨rfl, h⟩
    · rintro ⟨rfl, _⟩
      rfl
  · rw [if_neg h]
    constructor
    · intro h2; cases h2
    · rintro ⟨rfl, h2⟩
      exact absurd h2 h

theorem map_nfkc_of_digits (s : List Char) (h : ∀ c ∈ s, isDigitChar c = true) :
    s.map nfkcChar = s := by
  induction s with
  | nil => rfl
  | cons a t ih =>
    simp only [List.map_cons]
    rw [nfkcChar_of_digit a (h a (by simp)), ih (fun c hc => h c (by simp [hc]))]

theorem trimChars_of_no_space (s : List Char)
    (h : ∀ c ∈ s, isSpaceChar c = false) : trimChars s = s := by
  have h1 : s.dropWhile isSpaceChar = s := by
    cases s with
    | nil => rfl
    | cons a t => rw [List.dropWhile_cons, if_neg (by simp [h a (by simp)])]
  rw [trimChars, h1]
  have h2 : s.reverse.dropWhile isSpaceChar = s.reverse := by
    cases hs : s.reverse with
    | nil => rfl
    | cons a t =>
      have ha : a ∈ s := by rw [← List.mem_reverse, hs]; simp
      rw [List.dropWhile_cons, if_neg (by simp [h a ha])]
  rw [h2, List.reverse_reverse]

theorem specNormalizePipeline_of_digits (s : List Char)
    (h : ∀ c ∈ s, isDigitChar c = true) : specNormalizePipeline s = s := by
  rw [specNormalizePipeline,
    trimChars_of_no_space s (fun c hc => isSpaceChar_of_digit c (h c hc)),
    map_nfkc_of_digits s h, removeWhitespace_removeHyphens]
  refine List.filter_eq_self.mpr (fun c hc => ?_)
  have hd := h c hc
  simp [compactKeep, isSpaceChar_of_digit c hd, hyphen_ne_of_digit c hd]

/-- C4: the identifier normalizer `toNormalizedIsbn` succeeds with
result `s` if and only if trimming, NFKC width folding, hyphen removal
and whitespace removal turn the input into `s` and `s` consists of
exactly 13 decimal digits; on any other input it returns `null`.  In
particular `" 978-4-08-883644-0 "` normalizes to `"9784088836440"` and
`"978-abc"` fails. -/
theorem toNormalizedIsbn_iff_thirteen_digits :
    (∀ l s : List Char,
        toNormalizedIsbn l = some s ↔
          (specNormalizePipeline l = s ∧ s.length = 13 ∧
            ∀ c ∈ s, isDigitChar c = true)) ∧
    toNormalizedIsbn " 978-4-08-883644-0 ".toList = some sampleIsbn ∧
    toNormalizedIsbn "978-abc".toList = none := by
  refine ⟨fun l s => ?_, by decide, by decide⟩
  rw [toNormalizedIsbn_eq_some_iff, isNormalizedIsbn_iff]

/-- C9: the normalizer is idempotent; normalizing a successful result
again returns it unchanged. -/
theorem toNormalizedIsbn_idempotent (l s : List Char)
    (h : toNormalizedIsbn l = some s) : toNormalizedIsbn s = some s := by
  rw [toNormalizedIsbn_eq_some_iff] at h ⊢
  obtain ⟨-, hnorm⟩ := h
  obtain ⟨-, hdig⟩ := (isNormalizedIsbn_iff s).mp hnorm
  exact ⟨specNormalizePipeline_of_digits s hdig, hnorm⟩

/-- Witness for C9 at the spec's example input. -/
theorem toNormalizedIsbn_idempotent_witness :
    toNormalizedIsbn sampleIsbn = some sampleIsbn :=
  toNormalizedIsbn_idempotent " 978-4-08-883644-0 ".toList sampleIsbn (by decide)

/-! ### Token scanner lemmas -/

theorem isTokenBodyChar_of_digit (c : Char) (h : isDigitChar c = true) :
    isTokenBodyChar c = true := by
  simp [isTokenBodyChar, h]

theorem findTokenEnd_some (rest : List Char) (start k : Nat)
    (h : findTokenEnd rest start = some k) :
    11 ≤ k ∧ k ≤ start ∧ (rest.get? k).any isDigitChar = true := by
  induction start with
  | zero => cases h
  | succ s ih =>
    rw [findTokenEnd] at h
    by_cases h1 : Nat.succ s < 11
    · rw [if_pos h1] at h; cases h
    · rw [if_neg h1] at h
      by_cases h2 : (rest.get? (Nat.succ s)).any isDigitChar = true
      · rw [if_pos h2] at h
        injection h with h
        subst h
        exact ⟨by omega, Nat.le_refl _, h2⟩
      · rw [if_neg h2] at h
        obtain ⟨ha, hb, hc⟩ := ih h
        exact ⟨ha, by omega, hc⟩

theorem matchTokenLength_some (c : Char) (rest : List Char) (n : Nat)
    (h : matchTokenLength (c :: rest) = some n) :
    ∃ k, n = k + 2 ∧ 11 ≤ k ∧
      k ≤ min (rest.takeWhile isTokenBodyChar).length 30 ∧
      (rest.get? k).any isDigitChar = true := by
  simp only [matchTokenLength] at h
  cases hf : findTokenEnd rest (min (rest.takeWhile isTokenBodyChar).length 30) with
  | none => rw [hf] at h; cases h
  | some k =>
    rw [hf] at h
    injection h with h
    obtain ⟨h1, h2, h3⟩ := findTokenEnd_some rest _ k hf
    exact ⟨k, h.symm, h1, h2, h3⟩

theorem mem_take_of_le_takeWhile (p : Char → Bool) (rest : List Char) (k : Nat)
    (hk : k ≤ (rest.takeWhile p).length) : ∀ x ∈ rest.take k, p x = true := by
  intro x hx
  have hsuf : rest.takeWhile p ++ rest.dropWhile p = rest :=
    List.takeWhile_append_dropWhile p rest
  have htake : rest.take k = (rest.takeWhile p).take k := by
    conv_lhs => rw [← hsuf]
    rw [List.take_append_eq_append_take, Nat.sub_eq_zero_of_le hk]
    simp
  rw [htake] at hx
  exact List.mem_takeWhile_imp (List.mem_of_mem_take hx)

/-- Every token produced by the scanner has the shape required by the
regex (length 13 to 32, digits at both ends, body characters only) and
occurs inside the scanned text. -/
theorem scanTokensAux_shape (fuel : Nat) :
    ∀ l t, t ∈ scanTokensAux fuel l →
      (13 ≤ t.length ∧ t.length ≤ 32 ∧
        (∀ c ∈ t, isTokenBodyChar c = true) ∧
        t[0]?.any isDigitChar = true ∧
        t[t.length - 1]?.any isDigitChar = true) ∧
      t <:+: l := by
  induction fuel with
  | zero => intro l t ht; simp [scanTokensAux] at ht
  | succ fuel ih =>
    intro l t ht
    cases l with
    | nil => simp [scanTokensAux] at ht
    | cons c rest =>
      rw [scanTokensAux] at ht
      by_cases hd : isDigitChar c = true
      · rw [if_pos hd] at ht
        cases hm : matchTokenLength (c :: rest) with
        | none =>
          rw [hm] at ht
          obtain ⟨hshape, hinf⟩ := ih rest t ht
          exact ⟨hshape, hinf.trans (List.suffix_cons c rest).isInfix⟩
        | some n =>
          rw [hm] at ht
          rcases List.mem_cons.mp ht with rfl | ht2
          · obtain ⟨k, rfl, hk11, hkmin, hkdig⟩ := matchTokenLength_some c rest _ hm
            obtain ⟨d, hdget, hddig⟩ : ∃ d, rest.get? k = some d ∧ isDigitChar d = true := by
              cases hg : rest.get? k with
              | none => rw [hg] at hkdig; cases hkdig
              | some d => rw [hg] at hkdig; exact ⟨d, rfl, hkdig⟩
            obtain ⟨hklt, -⟩ := List.get?_eq_some.mp hdget
            have htake : (c :: rest).take (k + 2) = c :: rest.take (k + 1) := rfl
            have hlen : ((c :: rest).take (k + 2)).length = k + 2 := by
              rw [List.length_take]
              simp only [List.length_cons]
              omega
            refine ⟨⟨?_, ?_, ?_, ?_, ?_⟩, ⟨[], (c :: rest).drop (k + 2), by simp⟩⟩
            · omega
            · omega
            · intro x hx
              rw [htake] at hx
              rcases List.mem_cons.mp hx with rfl | hx2
              · exact isTokenBodyChar_of_digit x hd
              · rw [List.take_succ] at hx2
                rcases List.mem_append.mp hx2 with hx3 | hx3
                · exact mem_take_of_le_takeWhile isTokenBodyChar rest k
                    (le_trans hkmin (Nat.min_le_left _ _)) x hx3
                · have hg2 : rest[k]? = some d := by
                    rw [← List.get?_eq_getElem?]; exact hdget
                  have hxd : x = d := by
                    simp [hg2] at hx3
                    exact hx3
                  subst hxd
                  exact isTokenBodyChar_of_digit x hddig
            · rw [htake]
              simp [hd]
            · rw [hlen, htake]
              have : (c :: rest.take (k + 1))[k + 1]? = (rest.take (k + 1))[k]? := by
                simp
              rw [show k + 2 - 1 = k + 1 by omega, this,
                List.getElem?_take_of_lt (by omega), ← List.get?_eq_getElem?, hdget]
              simp [hddig]
          · obtain ⟨hshape, hinf⟩ := ih _ t ht2
            exact ⟨hshape, hinf.trans (List.drop_suffix _ _).isInfix⟩
      · rw [if_neg hd] at ht
        obtain ⟨hshape, hinf⟩ := ih rest t ht
        exact ⟨hshape, hinf.trans (List.suffix_cons c rest).isInfix⟩

theorem findSome?_eq_none_of_all_none {α β : Type} (f : α → Option β) :
    ∀ l : List α, (∀ x ∈ l, f x = none) → l.findSome? f = none := by
  intro l h
  induction l with
  | nil => rfl
  | cons a t ih =>
    rw [List.findSome?_cons, h a (by simp)]
    exact ih (fun x hx => h x (by simp [hx]))

/-- C8: the extractor first attempts direct normalization of the whole
string; otherwise it normalizes the text and scans for digit-bounded
tokens of 13 to 32 characters drawn from digits, hyphens and
whitespace, returning the normalization of the first token (in order of
appearance) that normalizes to a valid identifier, and `null` when no
token succeeds. -/
theorem extractNormalizedIsbn_algorithm :
    (∀ s r : List Char,
        toNormalizedIsbn s = some r → extractNormalizedIsbn s = some r) ∧
    (∀ s : List Char, toNormalizedIsbn s = none →
        extractNormalizedIsbn s =
          (scanIsbnTokens (normalizeScannedText s)).findSome? toNormalizedIsbn) ∧
    (∀ l t : List Char, t ∈ scanIsbnTokens l →
        13 ≤ t.length ∧ t.length ≤ 32 ∧
        (∀ c ∈ t, isTokenBodyChar c = true) ∧
        t[0]?.any isDigitChar = true ∧
        t[t.length - 1]?.any isDigitChar = true ∧
        t <:+: l) ∧
    (∀ s : List Char, toNormalizedIsbn s = none →
        (∀ t ∈ scanIsbnTokens (normalizeScannedText s), toNormalizedIsbn t = none) →
        extractNormalizedIsbn s = none) := by
  have h2 : ∀ s : List Char, toNormalizedIsbn s = none →
      extractNormalizedIsbn s =
        (scanIsbnTokens (normalizeScannedText s)).findSome? toNormalizedIsbn := by
    intro s h
    rw [extractNormalizedIsbn, h]
  refine ⟨?_, h2, ?_, ?_⟩
  · intro s r h
    rw [extractNormalizedIsbn, h]
  · intro l t ht
    obtain ⟨⟨ha, hb, hc, hd, he⟩, hf⟩ := scanTokensAux_shape l.length l t ht
    exact ⟨ha, hb, hc, hd, he, hf⟩
  · intro s h hall
    rw [h2 s h]
    exact findSome?_eq_none_of_all_none toNormalizedIsbn _ hall

/-- Witness for C8 at a concrete scan text. -/
theorem extractNormalizedIsbn_algorithm_witness :
    extractNormalizedIsbn " 978-4-08-883644-0 ".toList = some sampleIsbn :=
  extractNormalizedIsbn_algorithm.1 " 978-4-08-883644-0 ".toList sampleIsbn (by decide)

/-! ### Embedded-identifier extraction (C2) -/

/-- The tail of `sampleIsbn` after its leading digit. -/
def sampleIsbnTail : List Char :=
  ['7', '8', '4', '0', '8', '8', '8', '3', '6', '4', '4', '0']

theorem sampleIsbn_eq : sampleIsbn = '9' :: sampleIsbnTail := rfl

theorem isTokenBodyChar_eq_false_parts (c : Char) (h : isTokenBodyChar c = false) :
    isDigitChar c = false ∧ c ≠ '-' ∧ isSpaceChar c = false := by
  rw [isTokenBodyChar] at h
  simp only [Bool.or_eq_false_iff, decide_eq_false_iff_not] at h
  exact ⟨h.1.1, h.1.2, h.2⟩

theorem takeWhile_append_of_all (p : Char → Bool) (l1 l2 : List Char)
    (h : ∀ c ∈ l1, p c = true) :
    (l1 ++ l2).takeWhile p = l1 ++ l2.takeWhile p := by
  induction l1 with
  | nil => simp
  | cons a t ih =>
    rw [List.cons_append, List.takeWhile_cons, if_pos (h a (by simp)),
      List.cons_append, ih (fun c hc => h c (by simp [hc]))]

theorem matchTokenLength_isbn (w : List Char)
    (hw : ∀ c ∈ w, isTokenBodyChar c = false) :
    matchTokenLength ('9' :: (sampleIsbnTail ++ w)) = some 13 := by
  have htw : (sampleIsbnTail ++ w).takeWhile isTokenBodyChar = sampleIsbnTail := by
    rw [takeWhile_append_of_all _ _ _ (by decide)]
    cases w with
    | nil => simp
    | cons a t =>
      rw [List.takeWhile_cons, if_neg (by simp [hw a (by simp)])]
      simp
  have hg12 : (sampleIsbnTail ++ w).get? 12 = w.get? 0 :=
    List.get?_append_right (by decide)
  have hany12 : ((sampleIsbnTail ++ w).get? 12).any isDigitChar = false := by
    rw [hg12]
    cases w with
    | nil => rfl
    | cons a t =>
      have := (isTokenBodyChar_eq_false_parts a (hw a (by simp))).1
      simp [this]
  have hg11 : (sampleIsbnTail ++ w).get? 11 = some '0' := by
    rw [List.get?_append (by decide)]
    rfl
  have hfte : findTokenEnd (sampleIsbnTail ++ w) 12 = some 11 := by
    rw [show (12 : Nat) = Nat.succ 11 from rfl, findTokenEnd,
      if_neg (by omega), hany12]
    rw [if_neg (by simp)]
    rw [show (11 : Nat) = Nat.succ 10 from rfl, findTokenEnd,
      if_neg (by omega)]
    rw [show Nat.succ 10 = 11 from rfl, hg11]
    rw [if_pos (by decide)]
  simp only [matchTokenLength]
  rw [htw]
  rw [show min sampleIsbnTail.length 30 = 12 from by decide]
  rw [hfte]

theorem scanTokensAux_isbn_head (w : List Char)
    (hw : ∀ c ∈ w, isTokenBodyChar c = false) (m : Nat) :
    ∃ rest, scanTokensAux (Nat.succ m) ('9' :: (sampleIsbnTail ++ w)) =
      sampleIsbn :: rest := by
  refine ⟨scanTokensAux m (('9' :: (sampleIsbnTail ++ w)).drop 13), ?_⟩
  rw [scanTokensAux]
  rw [if_pos (by decide), matchTokenLength_isbn w hw]
  congr 1

theorem scanTokensAux_skip (u : List Char)
    (hnd : ∀ c ∈ u, isDigitChar c = false) :
    ∀ fuel l, scanTokensAux (u.length + fuel) (u ++ l) = scanTokensAux fuel l := by
  induction u with
  | nil => simp
  | cons a t ih =>
    intro fuel l
    rw [List.cons_append, List.length_cons,
      show t.length + 1 + fuel = Nat.succ (t.length + fuel) from by omega,
      scanTokensAux, if_neg (by simp [hnd a (by simp)])]
    exact ih (fun c hc => hnd c (by simp [hc])) fuel l

/-- C2 counterexample: `"99784088836440xxxxxx"` is a 20-character
payload containing `9784088836440` as a substring, yet the extractor
returns `null` on it: the greedy token scan absorbs the adjacent
leading digit, and the resulting 14-digit token does not normalize. -/
theorem extractNormalizedIsbn_payload_counterexample :
    ("99784088836440xxxxxx".toList).length = 20 ∧
    sampleIsbn <:+: "99784088836440xxxxxx".toList ∧
    extractNormalizedIsbn "99784088836440xxxxxx".toList = none :=
  ⟨by decide, by decide, by decide⟩

/-- C2 amended: on a 20-character payload containing `9784088836440`
whose remaining characters stay outside the token alphabet after width
folding (no digits, hyphens or whitespace), the extractor returns that
identifier. -/
theorem extractNormalizedIsbn_payload_amended (u v : List Char)
    (hchars : ∀ c ∈ u ++ v, isTokenBodyChar (nfkcChar c) = false)
    (hlen : u.length + v.length = 7) :
    (u ++ sampleIsbn ++ v).length = 20 ∧
    sampleIsbn <:+: u ++ sampleIsbn ++ v ∧
    extractNormalizedIsbn (u ++ sampleIsbn ++ v) = some sampleIsbn := by
  have hu' : ∀ c ∈ u.map nfkcChar, isTokenBodyChar c = false := by
    intro c hc
    rw [List.mem_map] at hc
    obtain ⟨a, ha, rfl⟩ := hc
    exact hchars a (List.mem_append_left _ ha)
  have hv' : ∀ c ∈ v.map nfkcChar, isTokenBodyChar c = false := by
    intro c hc
    rw [List.mem_map] at hc
    obtain ⟨a, ha, rfl⟩ := hc
    exact hchars a (List.mem_append_right _ ha)
  have hdig : ∀ c ∈ sampleIsbn, isDigitChar c = true := by decide
  have hnorm : normalizeScannedText (u ++ sampleIsbn ++ v) =
      u.map nfkcChar ++ sampleIsbn ++ v.map nfkcChar := by
    rw [normalizeScannedText, List.map_append, List.map_append,
      map_nfkc_of_digits _ hdig]
    apply trimChars_of_no_space
    intro c hc
    rcases List.mem_append.mp hc with hc1 | hc2
    · rcases List.mem_append.mp hc1 with hc3 | hc4
      · exact (isTokenBodyChar_eq_false_parts c (hu' c hc3)).2.2
      · exact isSpaceChar_of_digit c (hdig c hc4)
    · exact (isTokenBodyChar_eq_false_parts c (hv' c hc2)).2.2
  have hcompact :
      removeWhitespace (removeHyphens (normalizeScannedText (u ++ sampleIsbn ++ v))) =
        u.map nfkcChar ++ sampleIsbn ++ v.map nfkcChar := by
    rw [hnorm, removeWhitespace_removeHyphens]
    refine List.filter_eq_self.mpr (fun c hc => ?_)
    rcases List.mem_append.mp hc with hc1 | hc2
    · rcases List.mem_append.mp hc1 with hc3 | hc4
      · obtain ⟨-, hch, hcs⟩ := isTokenBodyChar_eq_false_parts c (hu' c hc3)
        simp [compactKeep, hch, hcs]
      · have hd := hdig c hc4
        simp [compactKeep, isSpaceChar_of_digit c hd, hyphen_ne_of_digit c hd]
    · obtain ⟨-, hch, hcs⟩ := isTokenBodyChar_eq_false_parts c (hv' c hc2)
      simp [compactKeep, hch, hcs]
  have hspec : specNormalizePipeline (u ++ sampleIsbn ++ v) =
      u.map nfkcChar ++ sampleIsbn ++ v.map nfkcChar := by
    rw [← compactText_eq_specNormalizePipeline]
    exact hcompact
  have hdirect : toNormalizedIsbn (u ++ sampleIsbn ++ v) = none := by
    cases h : toNormalizedIsbn (u ++ sampleIsbn ++ v) with
    | none => rfl
    | some s =>
      exfalso
      obtain ⟨hps, hns⟩ := (toNormalizedIsbn_eq_some_iff _ _).mp h
      obtain ⟨hlen13, -⟩ := (isNormalizedIsbn_iff s).mp hns
      rw [hspec] at hps
      rw [← hps] at hlen13
      simp [List.length_append, List.length_map, sampleIsbn] at hlen13
      omega
  have hscan : ∃ rest,
      scanIsbnTokens (u.map nfkcChar ++ sampleIsbn ++ v.map nfkcChar) =
        sampleIsbn :: rest := by
    rw [scanIsbnTokens, List.append_assoc]
    have hlen2 : (u.map nfkcChar ++ (sampleIsbn ++ v.map nfkcChar)).length =
        (u.map nfkcChar).length + Nat.succ (12 + (v.map nfkcChar).length) := by
      simp [List.length_append, sampleIsbn]
      omega
    have hnd : ∀ c ∈ u.map nfkcChar, isDigitChar c = false :=
      fun c hc => (isTokenBodyChar_eq_false_parts c (hu' c hc)).1
    rw [hlen2, scanTokensAux_skip (u.map nfkcChar) hnd]
    exact scanTokensAux_isbn_head (v.map nfkcChar) hv' (12 + (v.map nfkcChar).length)
  refine ⟨?_, ⟨u, v, rfl⟩, ?_⟩
  · simp [List.length_append, sampleIsbn]
    omega
  · rw [extractNormalizedIsbn, hdirect, hnorm]
    obtain ⟨rest, hr⟩ := hscan
    show (scanIsbnTokens
        (List.map nfkcChar u ++ sampleIsbn ++ List.map nfkcChar v)).findSome?
          toNormalizedIsbn = some sampleIsbn
    rw [hr, List.findSome?_cons,
      show toNormalizedIsbn sampleIsbn = some sampleIsbn from by decide]

/-- Witness for the amended C2 at a concrete payload. -/
theorem extractNormalizedIsbn_payload_amended_witness :
    ("see".toList ++ sampleIsbn ++ "okay".toList).length = 20 ∧
    sampleIsbn <:+: "see".toList ++ sampleIsbn ++ "okay".toList ∧
    extractNormalizedIsbn ("see".toList ++ sampleIsbn ++ "okay".toList) =
      some sampleIsbn :=
  extractNormalizedIsbn_payload_amended "see".toList "okay".toList
    (by decide) (by decide)

/-! ### Registration idempotency guard (register page) -/

/-- Status values of the register page's submission flow. -/
inductive RegisterRequestStatus
  | idle
  | success
  | alreadyExists
  | recentlyProcessed
  | invalidIsbn
  | failure
deriving DecidableEq

/-- Outcome of the `fetch` call: either the promise rejected before any
response was received (`threw`), or storage answered with an HTTP
status code and the error code extracted from the JSON payload. -/
inductive FetchOutcome
  | threw
  | resp (statusCode : Nat) (errorCode : Option (List Char))
deriving DecidableEq

/-- The mutable state read and written by `submitRegisterRequest`:
the single-flight ref, the two cooldown refs and the status state. -/
structure RegisterGuardState where
  isSubmittingRegister : Bool
  latestProcessedIsbn : Option (List Char)
  latestProcessedAtMilliseconds : Nat
  registerRequestStatus : RegisterRequestStatus
deriving DecidableEq

/-- Result of one `submitRegisterRequest` call: the updated state and
whether the storage request was actually issued. -/
structure SubmitResult where
  state : RegisterGuardState
  requestSent : Bool
deriving DecidableEq

/-- The cooldown window of the register page (10 seconds). -/
def RECENT_PROCESSED_ISBN_IGNORE_MILLISECONDS : Nat := 10000

/-- Embedding of `submitRegisterRequest` (register page).
`nowMilliseconds` is the `Date.now()` read before the request,
`completionMilliseconds` the `Date.now()` read when the fetch resolves.
The cooldown refs are updated only after `await fetch` returns, so a
thrown fetch leaves them unchanged. -/
def submitRegisterRequest (st : RegisterGuardState)
    (confirmedIsbn : Option (List Char))
    (nowMilliseconds completionMilliseconds : Nat)
    (outcome : FetchOutcome) : SubmitResult :=
  if st.isSubmittingRegister then ⟨st, false⟩
  else
    match confirmedIsbn with
    | none => ⟨{ st with registerRequestStatus := .invalidIsbn }, false⟩
    | some isbn =>
      if ¬ isNormalizedIsbn isbn then
        ⟨{ st with registerRequestStatus := .invalidIsbn }, false⟩
      else if st.latestProcessedIsbn = some isbn ∧
          nowMilliseconds - st.latestProcessedAtMilliseconds <
            RECENT_PROCESSED_ISBN_IGNORE_MILLISECONDS then
        ⟨{ st with registerRequestStatus := .recentlyProcessed }, false⟩
      else
        match outcome with
        | .threw => ⟨{ st with registerRequestStatus := .failure }, true⟩
        | .resp statusCode errorCode =>
          let st2 := { st with
            latestProcessedIsbn := some isbn,
            latestProcessedAtMilliseconds := completionMilliseconds }
          if 200 ≤ statusCode ∧ statusCode < 300 then
            ⟨{ st2 with registerRequestStatus := .success }, true⟩
          else if statusCode = 409 ∧
              errorCode = some "VOLUME_ALREADY_EXISTS".toList then
            ⟨{ st2 with registerRequestStatus := .alreadyExists }, true⟩
          else if statusCode = 400 ∧
              errorCode = some "INVALID_ISBN".toList then
            ⟨{ st2 with registerRequestStatus := .invalidIsbn }, true⟩
          else
            ⟨{ st2 with registerRequestStatus := .failure }, true⟩

/-- The register page's initial guard state. -/
def initialRegisterGuardState : RegisterGuardState :=
  ⟨false, none, 0, .idle⟩

/-- C3 counterexample: a first submission of the identifier completes
with status `failure` because the fetch threw before a response, and a
repeat submission of the same identifier one second later is not
rejected by the cooldown: the storage request is sent again. -/
theorem submitRegisterRequest_cooldown_counterexample :
    (submitRegisterRequest initialRegisterGuardState (some sampleIsbn)
        1000 1500 .threw).state.registerRequestStatus =
      RegisterRequestStatus.failure ∧
    (submitRegisterRequest
        (submitRegisterRequest initialRegisterGuardState (some sampleIsbn)
          1000 1500 .threw).state
        (some sampleIsbn) 2000 2500 (.resp 201 none)).requestSent = true ∧
    (submitRegisterRequest
        (submitRegisterRequest initialRegisterGuardState (some sampleIsbn)
          1000 1500 .threw).state
        (some sampleIsbn) 2000 2500 (.resp 201 none)).state.registerRequestStatus ≠
      RegisterRequestStatus.recentlyProcessed := by
  decide

/-- C3 amended: with no submission in flight and a valid identifier:
a repeat of the identifier recorded by the cooldown refs within 10
seconds of the recorded completion time is rejected locally as
`recentlyProcessed` with no storage request; an identifier different
from the recorded one is never rejected by the cooldown; a repeat after
the window has elapsed is sent to storage; a submission whose fetch
resolves (with any HTTP status) arms the cooldown with the identifier
and the completion time; a submission whose fetch throws before a
response leaves the cooldown refs unchanged. -/
theorem submitRegisterRequest_cooldown (st : RegisterGuardState)
    (isbn : List Char) (hvalid : isNormalizedIsbn isbn = true)
    (hidle : st.isSubmittingRegister = false) :
    (∀ now done outcome, st.latestProcessedIsbn = some isbn →
        now - st.latestProcessedAtMilliseconds <
          RECENT_PROCESSED_ISBN_IGNORE_MILLISECONDS →
        submitRegisterRequest st (some isbn) now done outcome =
          ⟨{ st with registerRequestStatus := .recentlyProcessed }, false⟩) ∧
    (∀ now done outcome, st.latestProcessedIsbn ≠ some isbn →
        (submitRegisterRequest st (some isbn) now done outcome).requestSent =
          true ∧
        (submitRegisterRequest st (some isbn) now done
            outcome).state.registerRequestStatus ≠ .recentlyProcessed) ∧
    (∀ now done outcome, st.latestProcessedIsbn = some isbn →
        RECENT_PROCESSED_ISBN_IGNORE_MILLISECONDS ≤
          now - st.latestProcessedAtMilliseconds →
        (submitRegisterRequest st (some isbn) now done outcome).requestSent =
          true) ∧
    (∀ now done statusCode errorCode,
        (submitRegisterRequest st (some isbn) now done
            (.resp statusCode errorCode)).requestSent = true →
        (submitRegisterRequest st (some isbn) now done
            (.resp statusCode errorCode)).state.latestProcessedIsbn =
          some isbn ∧
        (submitRegisterRequest st (some isbn) now done
            (.resp statusCode errorCode)).state.latestProcessedAtMilliseconds =
          done) ∧
    (∀ now done,
        (submitRegisterRequest st (some isbn) now done
            .threw).state.latestProcessedIsbn = st.latestProcessedIsbn ∧
        (submitRegisterRequest st (some isbn) now done
            .threw).state.latestProcessedAtMilliseconds =
          st.latestProcessedAtMilliseconds) := by
  refine ⟨?_, ?_, ?_, ?_, ?_⟩
  · intro now done outcome hsame hwin
    simp [submitRegisterRequest, hidle, hvalid, hsame, hwin]
  · intro now done outcome hne
    cases outcome with
    | threw =>
      constructor
      · simp [submitRegisterRequest, hidle, hvalid, hne]
      · simp [submitRegisterRequest, hidle, hvalid, hne]
    | resp statusCode errorCode =>
      constructor
      · simp only [submitRegisterRequest, hidle, Bool.false_eq_true,
          if_false, hvalid]
        rw [if_neg (by simp [hvalid]), if_neg (by simp [hne])]
        split_ifs <;> rfl
      · simp only [submitRegisterRequest, hidle, Bool.false_eq_true,
          if_false, hvalid]
        rw [if_neg (by simp [hvalid]), if_neg (by simp [hne])]
        split_ifs <;> simp
  · intro now done outcome hsame hwin
    have hcool : ¬ (st.latestProcessedIsbn = some isbn ∧
        now - st.latestProcessedAtMilliseconds <
          RECENT_PROCESSED_ISBN_IGNORE_MILLISECONDS) := by
      rintro ⟨-, h2⟩
      omega
    cases outcome with
    | threw => simp [submitRegisterRequest, hidle, hvalid, hcool]
    | resp statusCode errorCode =>
      simp only [submitRegisterRequest, hidle, Bool.false_eq_true,
        if_false, hvalid]
      rw [if_neg (by simp [hvalid]), if_neg hcool]
      split_ifs <;> rfl
  · intro now done statusCode errorCode hsent
    by_cases hcool : st.latestProcessedIsbn = some isbn ∧
        now - st.latestProcessedAtMilliseconds <
          RECENT_PROCESSED_ISBN_IGNORE_MILLISECONDS
    · simp [submitRegisterRequest, hidle, hvalid, hcool] at hsent
    · constructor
      · simp only [submitRegisterRequest, hidle, Bool.false_eq_true,
          if_false, hvalid]
        rw [if_neg (by simp [hvalid]), if_neg hcool]
        split_ifs <;> rfl
      · simp only [submitRegisterRequest, hidle, Bool.false_eq_true,
          if_false, hvalid]
        rw [if_neg (by simp [hvalid]), if_neg hcool]
        split_ifs <;> rfl
  · intro now done
    by_cases hcool : st.latestProcessedIsbn = some isbn ∧
        now - st.latestProcessedAtMilliseconds <
          RECENT_PROCESSED_ISBN_IGNORE_MILLISECONDS
    · constructor
      · simp [submitRegisterRequest, hidle, hvalid, hcool]
      · simp [submitRegisterRequest, hidle, hvalid, hcool]
    · constructor
      · simp [submitRegisterRequest, hidle, hvalid, hcool]
      · simp [submitRegisterRequest, hidle, hvalid, hcool]

/-- Witness for the amended C3 at concrete states and times. -/
theorem submitRegisterRequest_cooldown_witness :
    submitRegisterRequest ⟨false, some sampleIsbn, 1000, .idle⟩
        (some sampleIsbn) 5000 5100 (.resp 201 none) =
      ⟨⟨false, some sampleIsbn, 1000, .recentlyProcessed⟩, false⟩ ∧
    (submitRegisterRequest ⟨false, some sampleIsbn, 1000, .idle⟩
        (some sampleIsbn) 12000 12100 (.resp 201 none)).requestSent = true :=
  ⟨(submitRegisterRequest_cooldown ⟨false, some sampleIsbn, 1000, .idle⟩
      sampleIsbn (by decide) rfl).1 5000 5100 (.resp 201 none) rfl (by decide),
   (submitRegisterRequest_cooldown ⟨false, some sampleIsbn, 1000, .idle⟩
      sampleIsbn (by decide) rfl).2.2.1 12000 12100 (.resp 201 none) rfl
      (by decide)⟩

/-! ### Series candidates: merge resolver and deduplication -/

/-- Candidate record of `SeriesCandidatesSection.tsx` (its `isbn` field
is a non-null string). -/
structure SeriesCandidate where
  title : String
  author : Option String
  publisher : Option String
  isbn : String
  volume_number : Option Int
  cover_url : Option String
deriving DecidableEq

/-- The second guard of `pickPreferredSeriesCandidate`: both volume
numbers are known and the incoming one is strictly smaller. -/
def incomingHasSmallerVolumeNumber
    (existingCandidate incomingCandidate : SeriesCandidate) : Bool :=
  match existingCandidate.volume_number, incomingCandidate.volume_number with
  | some existingNumber, some incomingNumber => incomingNumber < existingNumber
  | _, _ => false

/-- Embedding of `pickPreferredSeriesCandidate`
(`SeriesCandidatesSection.tsx`). -/
def pickPreferredSeriesCandidate
    (existingCandidate incomingCandidate : SeriesCandidate) : SeriesCandidate :=
  if existingCandidate.volume_number = none ∧
      incomingCandidate.volume_number ≠ none then
    incomingCandidate
  else if incomingHasSmallerVolumeNumber existingCandidate incomingCandidate then
    incomingCandidate
  else if existingCandidate.cover_url = none ∧
      incomingCandidate.cover_url ≠ none then
    incomingCandidate
  else
    existingCandidate

/-- Model of a JavaScript `Map` with string keys: an insertion-ordered
association list.  `set` on an existing key overwrites in place and
keeps the key's position; `set` on a new key appends. -/
def jsMapSet {β : Type} (m : List (String × β)) (k : String) (v : β) :
    List (String × β) :=
  if m.any (fun p => p.1 = k) then
    m.map (fun p => if p.1 = k then (k, v) else p)
  else m ++ [(k, v)]

/-- Model of `Map.prototype.get`. -/
def jsMapGet {β : Type} (m : List (String × β)) (k : String) : Option β :=
  (m.find? (fun p => p.1 = k)).map (fun p => p.2)

/-- One step of the fold in `mergeCandidatesByIsbn`. -/
def mergeCandidatesStep (m : List (String × SeriesCandidate))
    (candidate : SeriesCandidate) : List (String × SeriesCandidate) :=
  match jsMapGet m candidate.isbn with
  | none => jsMapSet m candidate.isbn candidate
  | some existingCandidate =>
    jsMapSet m candidate.isbn
      (pickPreferredSeriesCandidate existingCandidate candidate)

/-- Embedding of `mergeCandidatesByIsbn`
(`SeriesCandidatesSection.tsx`): fold into a `Map` keyed by identifier,
then take the values in insertion order. -/
def mergeCandidatesByIsbn (candidates : List SeriesCandidate) :
    List SeriesCandidate :=
  (candidates.foldl mergeCandidatesStep []).map (fun p => p.2)

/-- Existing candidate of the C1 counterexample: volume number 1, no
cover. -/
def c1Existing : SeriesCandidate :=
  ⟨"A", none, none, "9784088836440", some 1, none⟩

/-- Incoming candidate of the C1 counterexample: null volume number but
a cover URL. -/
def c1Incoming : SeriesCandidate :=
  ⟨"B", none, none, "9784088836440", none, some "https://example.com/cover.jpg"⟩

/-- C1 counterexample: the existing candidate has a known volume number
and the incoming one has a null volume number, yet the resolver returns
the incoming candidate (because the existing one lacks a cover), not
the existing one as the claimed rule 1 would require. -/
theorem pickPreferredSeriesCandidate_counterexample :
    c1Existing.volume_number ≠ none ∧
    c1Incoming.volume_number = none ∧
    c1Incoming ≠ c1Existing ∧
    pickPreferredSeriesCandidate c1Existing c1Incoming = c1Incoming := by
  refine ⟨by decide, by decide, by decide, by decide⟩

theorem incomingHasSmallerVolumeNumber_iff (e i : SeriesCandidate) :
    incomingHasSmallerVolumeNumber e i = true ↔
      ∃ en icn, e.volume_number = some en ∧ i.volume_number = some icn ∧
        icn < en := by
  rw [incomingHasSmallerVolumeNumber]
  cases he : e.volume_number with
  | none => simp [he]
  | some en =>
    cases hi : i.volume_number with
    | none => simp [hi]
    | some icn => simp [he, hi]

/-- C1 amended: the resolver returns one of its two arguments, and (for
distinct arguments) it returns the incoming candidate exactly when one
of its switch conditions holds: the existing volume number is null and
the incoming one is not; both volume numbers are known and the incoming
one is smaller; or the existing cover is null and the incoming cover is
not.  A rule that favours the existing candidate does not stop
evaluation, so an existing candidate with a known volume number but no
cover loses to an incoming candidate with a null volume number and a
cover. -/
theorem pickPreferredSeriesCandidate_characterization
    (e i : SeriesCandidate) (hne : e ≠ i) :
    (pickPreferredSeriesCandidate e i = e ∨
      pickPreferredSeriesCandidate e i = i) ∧
    (pickPreferredSeriesCandidate e i = i ↔
      ((e.volume_number = none ∧ i.volume_number ≠ none) ∨
       (∃ en icn, e.volume_number = some en ∧ i.volume_number = some icn ∧
         icn < en) ∨
       (e.cover_url = none ∧ i.cover_url ≠ none))) := by
  rw [pickPreferredSeriesCandidate]
  split_ifs with h1 h2 h3
  · exact ⟨Or.inr rfl, ⟨fun _ => Or.inl h1, fun _ => rfl⟩⟩
  · exact ⟨Or.inr rfl,
      ⟨fun _ => Or.inr (Or.inl ((incomingHasSmallerVolumeNumber_iff e i).mp h2)),
       fun _ => rfl⟩⟩
  · exact ⟨Or.inr rfl, ⟨fun _ => Or.inr (Or.inr h3), fun _ => rfl⟩⟩
  · refine ⟨Or.inl rfl, ⟨fun he => absurd he hne, fun hcond => ?_⟩⟩
    exfalso
    rcases hcond with hc | hc | hc
    · exact h1 hc
    · exact h2 ((incomingHasSmallerVolumeNumber_iff e i).mpr hc)
    · exact h3 hc

/-- Witness for the amended C1 at the concrete candidate pair. -/
theorem pickPreferredSeriesCandidate_characterization_witness :
    pickPreferredSeriesCandidate c1Existing c1Incoming = c1Existing ∨
    pickPreferredSeriesCandidate c1Existing c1Incoming = c1Incoming :=
  (pickPreferredSeriesCandidate_characterization c1Existing c1Incoming
    (by decide)).1

theorem jsMapSet_keys {β : Type} (m : List (String × β)) (k : String) (v : β) :
    (jsMapSet m k v).map Prod.fst =
      if k ∈ m.map Prod.fst then m.map Prod.fst else m.map Prod.fst ++ [k] := by
  rw [jsMapSet]
  by_cases h : m.any (fun p => p.1 = k) = true
  · have hk : k ∈ m.map Prod.fst := by
      rw [List.any_eq_true] at h
      obtain ⟨p, hp, hpk⟩ := h
      rw [List.mem_map]
      exact ⟨p, hp, by simpa using hpk⟩
    rw [if_pos h, if_pos hk, List.map_map]
    refine List.map_congr_left (fun p hp => ?_)
    by_cases hpk : p.1 = k <;> simp [hpk]
  · have hk : k ∉ m.map Prod.fst := by
      intro hmem
      rw [List.mem_map] at hmem
      obtain ⟨p, hp, hpk⟩ := hmem
      rw [List.any_eq_true] at h
      exact h ⟨p, hp, by simpa using hpk⟩
    rw [if_neg h, if_neg hk]
    simp

theorem jsMapGet_eq_none_iff {β : Type} (m : List (String × β)) (k : String) :
    jsMapGet m k = none ↔ k ∉ m.map Prod.fst := by
  rw [jsMapGet, Option.map_eq_none', List.find?_eq_none]
  constructor
  · intro h hk
    rw [List.mem_map] at hk
    obtain ⟨p, hp, hpk⟩ := hk
    exact absurd (by simpa using hpk) (by simpa using h p hp)
  · intro h p hp
    simp only [decide_eq_true_eq]
    intro hpk
    exact h (List.mem_map.mpr ⟨p, hp, hpk⟩)

theorem jsMapGet_eq_some {β : Type} (m : List (String × β)) (k : String)
    (v : β) (h : jsMapGet m k = some v) : ∃ p ∈ m, p.1 = k ∧ p.2 = v := by
  rw [jsMapGet, Option.map_eq_some'] at h
  obtain ⟨p, hp, hpv⟩ := h
  refine ⟨p, List.mem_of_find?_eq_some hp, ?_, hpv⟩
  have := List.find?_some hp
  simpa using this

theorem mem_jsMapSet {β : Type} (m : List (String × β)) (k : String) (v : β)
    (p : String × β) (hp : p ∈ jsMapSet m k v) : p ∈ m ∨ p = (k, v) := by
  rw [jsMapSet] at hp
  by_cases h : m.any (fun q => q.1 = k) = true
  · rw [if_pos h, List.mem_map] at hp
    obtain ⟨q, hq, hqp⟩ := hp
    by_cases hqk : q.1 = k
    · rw [if_pos hqk] at hqp
      exact Or.inr hqp.symm
    · rw [if_neg hqk] at hqp
      exact Or.inl (hqp ▸ hq)
  · rw [if_neg h, List.mem_append] at hp
    rcases hp with hp | hp
    · exact Or.inl hp
    · simp at hp
      exact Or.inr hp

theorem pickPreferredSeriesCandidate_mem (e i : SeriesCandidate) :
    pickPreferredSeriesCandidate e i = e ∨ pickPreferredSeriesCandidate e i = i := by
  rw [pickPreferredSeriesCandidate]
  split_ifs <;> simp

/-- Invariant of the merge fold: every stored candidate's identifier is
its key. -/
def goodCandidateMap (m : List (String × SeriesCandidate)) : Prop :=
  ∀ p ∈ m, p.2.isbn = p.1

theorem goodCandidateMap_step (m : List (String × SeriesCandidate))
    (c : SeriesCandidate) (hm : goodCandidateMap m) :
    goodCandidateMap (mergeCandidatesStep m c) := by
  rw [mergeCandidatesStep]
  cases hg : jsMapGet m c.isbn with
  | none =>
    intro p hp
    rcases mem_jsMapSet m c.isbn c p hp with hp2 | hp2
    · exact hm p hp2
    · rw [hp2]
  | some e =>
    intro p hp
    rcases mem_jsMapSet m c.isbn _ p hp with hp2 | hp2
    · exact hm p hp2
    · rw [hp2]
      obtain ⟨q, hq, hqk, hqv⟩ := jsMapGet_eq_some m c.isbn e hg
      show (pickPreferredSeriesCandidate e c).isbn = c.isbn
      rcases pickPreferredSeriesCandidate_mem e c with hpick | hpick
      · rw [hpick, ← hqv, hm q hq, hqk]
      · rw [hpick]

theorem mergeCandidatesStep_keys (m : List (String × SeriesCandidate))
    (c : SeriesCandidate) :
    (mergeCandidatesStep m c).map Prod.fst =
      if c.isbn ∈ m.map Prod.fst then m.map Prod.fst
      else m.map Prod.fst ++ [c.isbn] := by
  rw [mergeCandidatesStep]
  cases jsMapGet m c.isbn with
  | none => exact jsMapSet_keys m c.isbn c
  | some e => exact jsMapSet_keys m c.isbn _

/-- First-seen deduplication of a key sequence, as the specification
words it: a key survives at the position of its first occurrence. -/
def firstSeenIsbns (isbns : List String) : List String :=
  isbns.foldl (fun acc k => if k ∈ acc then acc else acc ++ [k]) []

theorem mergeCandidates_fold_inv (candidates : List SeriesCandidate) :
    ∀ m : List (String × SeriesCandidate), goodCandidateMap m →
      goodCandidateMap (candidates.foldl mergeCandidatesStep m) ∧
      (candidates.foldl mergeCandidatesStep m).map Prod.fst =
        (candidates.map (fun c => c.isbn)).foldl
          (fun acc k => if k ∈ acc then acc else acc ++ [k])
          (m.map Prod.fst) := by
  induction candidates with
  | nil => intro m hm; exact ⟨hm, rfl⟩
  | cons c rest ih =>
    intro m hm
    rw [List.foldl_cons, List.map_cons, List.foldl_cons]
    obtain ⟨h1, h2⟩ := ih (mergeCandidatesStep m c) (goodCandidateMap_step m c hm)
    exact ⟨h1, by rw [h2, mergeCandidatesStep_keys]⟩

theorem foldl_firstSeen_nodup (isbns : List String) :
    ∀ acc : List String, acc.Nodup →
      (isbns.foldl (fun acc k => if k ∈ acc then acc else acc ++ [k]) acc).Nodup := by
  induction isbns with
  | nil => intro acc hacc; exact hacc
  | cons k rest ih =>
    intro acc hacc
    rw [List.foldl_cons]
    by_cases hk : k ∈ acc
    · rw [if_pos hk]
      exact ih acc hacc
    · rw [if_neg hk]
      refine ih (acc ++ [k]) ?_
      simp [List.nodup_append, hacc, hk]

/-- C6: the deduplicated candidate list has at most one candidate per
identifier, and the surviving identifiers appear in first-seen order of
the input. -/
theorem mergeCandidatesByIsbn_unique_first_seen
    (candidates : List SeriesCandidate) :
    ((mergeCandidatesByIsbn candidates).map (fun c => c.isbn)).Nodup ∧
    (mergeCandidatesByIsbn candidates).map (fun c => c.isbn) =
      firstSeenIsbns (candidates.map (fun c => c.isbn)) := by
  obtain ⟨hgood, hkeys⟩ :=
    mergeCandidates_fold_inv candidates [] (fun p hp => absurd hp (by simp))
  have hvals : (mergeCandidatesByIsbn candidates).map (fun c => c.isbn) =
      (candidates.foldl mergeCandidatesStep []).map Prod.fst := by
    rw [mergeCandidatesByIsbn, List.map_map]
    exact List.map_congr_left (fun p hp => hgood p hp)
  constructor
  · rw [hvals, hkeys]
    exact foldl_firstSeen_nodup _ [] (by simp)
  · rw [hvals, hkeys, firstSeenIsbns]
    rfl

/-! ### Registered volumes: ordering and incremental merge -/

/-- Volume record of `seriesVolumeSignal.ts`, as consumed by
`RegisteredVolumesSection.tsx`. -/
structure SeriesVolume where
  isbn : String
  volume_number : Option Int
  cover_url : Option String
  registered_at : String
deriving DecidableEq

/-- Model of `String.prototype.localeCompare` as lexicographic
comparison of code points, reduced to an `Ordering`. -/
def strCompare (a b : String) : Ordering :=
  if a < b then .lt else if b < a then .gt else .eq

/-- The timestamp-then-identifier tail of the volume comparator. -/
def volumeTieCompare (leftVolume rightVolume : SeriesVolume) : Ordering :=
  match strCompare leftVolume.registered_at rightVolume.registered_at with
  | .eq => strCompare leftVolume.isbn rightVolume.isbn
  | registeredAtDiff => registeredAtDiff

/-- Embedding of the comparator of `sortSeriesVolumes`
(`RegisteredVolumesSection.tsx`): null volume numbers sort last, then
ascending volume number, then ascending registration timestamp, then
ascending identifier. -/
def volumeCompare (leftVolume rightVolume : SeriesVolume) : Ordering :=
  if leftVolume.volume_number.isNone ≠ rightVolume.volume_number.isNone then
    (if leftVolume.volume_number.isNone then .gt else .lt)
  else
    match leftVolume.volume_number, rightVolume.volume_number with
    | some leftNumber, some rightNumber =>
      if leftNumber ≠ rightNumber then
        (if leftNumber < rightNumber then .lt else .gt)
      else volumeTieCompare leftVolume rightVolume
    | _, _ => volumeTieCompare leftVolume rightVolume

/-- The comparator as a boolean order: `compare(a, b) <= 0`. -/
def volumeLE (a b : SeriesVolume) : Bool :=
  decide (volumeCompare a b ≠ Ordering.gt)

/-- Embedding of `sortSeriesVolumes`: a stable sort by the comparator
(JavaScript `Array.prototype.sort` is stable). -/
def sortSeriesVolumes (volumes : List SeriesVolume) : List SeriesVolume :=
  volumes.mergeSort volumeLE

/-- Embedding of `mergeSeriesVolume`: fold the current volumes into a
`Map` keyed by identifier, `set` the incoming volume, then sort the
values. -/
def mergeSeriesVolume (currentVolumes : List SeriesVolume)
    (incomingVolume : SeriesVolume) : List SeriesVolume :=
  sortSeriesVolumes
    ((jsMapSet (currentVolumes.foldl (fun m v => jsMapSet m v.isbn v) [])
        incomingVolume.isbn incomingVolume).map (fun p => p.2))

/-- Replace-or-append upsert by identifier: the specification's wording
of the incremental merge applied to the previous list. -/
def upsertVolume (currentVolumes : List SeriesVolume)
    (incomingVolume : SeriesVolume) : List SeriesVolume :=
  if currentVolumes.any (fun v => v.isbn = incomingVolume.isbn) then
    currentVolumes.map (fun v =>
      if v.isbn = incomingVolume.isbn then incomingVolume else v)
  else currentVolumes ++ [incomingVolume]

/-- The specification's strict volume order. -/
def specVolumeLT (a b : SeriesVolume) : Prop :=
  (a.volume_number ≠ none ∧ b.volume_number = none) ∨
  (∃ x y, a.volume_number = some x ∧ b.volume_number = some y ∧ x < y) ∨
  (a.volume_number = b.volume_number ∧
    a.registered_at < b.registered_at) ∨
  (a.volume_number = b.volume_number ∧
    a.registered_at = b.registered_at ∧ a.isbn < b.isbn)

/-- The specification's volume order: ascending volume number with null
last, then ascending registration timestamp, then ascending
identifier, allowing full-key ties. -/
def specVolumeLE (a b : SeriesVolume) : Prop :=
  specVolumeLT a b ∨
  (a.volume_number = b.volume_number ∧
    a.registered_at = b.registered_at ∧ a.isbn = b.isbn)

/-- Sort rank of the null-volume-number flag (nulls last). -/
def volumeKeyRank (a : SeriesVolume) : Nat :=
  if a.volume_number = none then 1 else 0

/-- Volume number with an arbitrary default for the both-null case. -/
def volumeKeyNumber (a : SeriesVolume) : Int :=
  a.volume_number.getD 0

/-- Lexicographic normal form of the volume order. -/
def volumeKeyLE (a b : SeriesVolume) : Prop :=
  volumeKeyRank a < volumeKeyRank b ∨
  (volumeKeyRank a = volumeKeyRank b ∧
    (volumeKeyNumber a < volumeKeyNumber b ∨
      (volumeKeyNumber a = volumeKeyNumber b ∧
        (a.registered_at < b.registered_at ∨
          (a.registered_at = b.registered_at ∧
            (a.isbn < b.isbn ∨ a.isbn = b.isbn))))))

theorem strCompare_lt (a b : String) (h : a < b) : strCompare a b = .lt := by
  rw [strCompare, if_pos h]

theorem strCompare_gt (a b : String) (h : b < a) : strCompare a b = .gt := by
  rw [strCompare, if_neg (lt_asymm h), if_pos h]

theorem strCompare_eq (a b : String) (h : a = b) : strCompare a b = .eq := by
  subst h
  rw [strCompare, if_neg (lt_irrefl a), if_neg (lt_irrefl a)]

theorem volumeTieCompare_ne_gt (a b : SeriesVolume) :
    (volumeTieCompare a b ≠ Ordering.gt) ↔
      (a.registered_at < b.registered_at ∨
        (a.registered_at = b.registered_at ∧
          (a.isbn < b.isbn ∨ a.isbn = b.isbn))) := by
  rw [volumeTieCompare]
  rcases lt_trichotomy a.registered_at b.registered_at with ht | ht | ht
  · rw [strCompare_lt _ _ ht]
    simp [ht]
  · rw [strCompare_eq _ _ ht]
    rcases lt_trichotomy a.isbn b.isbn with hi | hi | hi
    · rw [strCompare_lt _ _ hi]
      simp [ht, hi]
    · rw [strCompare_eq _ _ hi]
      simp [ht, hi]
    · rw [strCompare_gt _ _ hi]
      have hne : a.isbn ≠ b.isbn := ne_of_gt hi
      simp [ht, lt_asymm hi, hne]
  · rw [strCompare_gt _ _ ht]
    have hne : a.registered_at ≠ b.registered_at := ne_of_gt ht
    simp [lt_asymm ht, hne]

theorem volumeLE_iff_key (a b : SeriesVolume) :
    volumeLE a b = true ↔ volumeKeyLE a b := by
  rw [volumeLE, decide_eq_true_iff]
  cases hna : a.volume_number with
  | none =>
    cases hnb : b.volume_number with
    | none =>
      have hcmp : volumeCompare a b = volumeTieCompare a b := by
        simp [volumeCompare, hna, hnb]
      rw [hcmp, volumeTieCompare_ne_gt]
      simp [volumeKeyLE, volumeKeyRank, volumeKeyNumber, hna, hnb]
    | some y =>
      have hcmp : volumeCompare a b = .gt := by
        simp [volumeCompare, hna, hnb]
      rw [hcmp]
      simp [volumeKeyLE, volumeKeyRank, volumeKeyNumber, hna, hnb]
  | some x =>
    cases hnb : b.volume_number with
    | none =>
      have hcmp : volumeCompare a b = .lt := by
        simp [volumeCompare, hna, hnb]
      rw [hcmp]
      simp [volumeKeyLE, volumeKeyRank, volumeKeyNumber, hna, hnb]
    | some y =>
      by_cases hxy : x = y
      · subst hxy
        have hcmp : volumeCompare a b = volumeTieCompare a b := by
          simp [volumeCompare, hna, hnb]
        rw [hcmp, volumeTieCompare_ne_gt]
        simp [volumeKeyLE, volumeKeyRank, volumeKeyNumber, hna, hnb]
      · by_cases hlt : x < y
        · have hcmp : volumeCompare a b = .lt := by
            simp [volumeCompare, hna, hnb, hxy, hlt]
          rw [hcmp]
          simp [volumeKeyLE, volumeKeyRank, volumeKeyNumber, hna, hnb, hlt]
        · have hcmp : volumeCompare a b = .gt := by
            simp [volumeCompare, hna, hnb, hxy, hlt]
          rw [hcmp]
          simp [volumeKeyLE, volumeKeyRank, volumeKeyNumber, hna, hnb, hxy, hlt]

theorem specVolumeLE_iff_key (a b : SeriesVolume) :
    specVolumeLE a b ↔ volumeKeyLE a b := by
  cases hna : a.volume_number with
  | none =>
    cases hnb : b.volume_number with
    | none =>
      simp [specVolumeLE, specVolumeLT, volumeKeyLE, volumeKeyRank,
        volumeKeyNumber, hna, hnb]
      tauto
    | some y =>
      simp [specVolumeLE, specVolumeLT, volumeKeyLE, volumeKeyRank,
        volumeKeyNumber, hna, hnb]
  | some x =>
    cases hnb : b.volume_number with
    | none =>
      simp [specVolumeLE, specVolumeLT, volumeKeyLE, volumeKeyRank,
        volumeKeyNumber, hna, hnb]
    | some y =>
      simp [specVolumeLE, specVolumeLT, volumeKeyLE, volumeKeyRank,
        volumeKeyNumber, hna, hnb]
      tauto

theorem volumeLE_iff_spec (a b : SeriesVolume) :
    volumeLE a b = true ↔ specVolumeLE a b :=
  (volumeLE_iff_key a b).trans (specVolumeLE_iff_key a b).symm

theorem strTailLE_trans (ra rb rc ia ib ic : String)
    (h1 : ra < rb ∨ (ra = rb ∧ (ia < ib ∨ ia = ib)))
    (h2 : rb < rc ∨ (rb = rc ∧ (ib < ic ∨ ib = ic))) :
    ra < rc ∨ (ra = rc ∧ (ia < ic ∨ ia = ic)) := by
  rcases h1 with h1 | ⟨he1, h1⟩
  · rcases h2 with h2 | ⟨he2, h2⟩
    · exact Or.inl (lt_trans h1 h2)
    · exact Or.inl (lt_of_lt_of_eq h1 he2)
  · rcases h2 with h2 | ⟨he2, h2⟩
    · exact Or.inl (lt_of_eq_of_lt he1 h2)
    · refine Or.inr ⟨he1.trans he2, ?_⟩
      rcases h1 with h1 | h1
      · rcases h2 with h2 | h2
        · exact Or.inl (lt_trans h1 h2)
        · exact Or.inl (lt_of_lt_of_eq h1 h2)
      · rcases h2 with h2 | h2
        · exact Or.inl (lt_of_eq_of_lt h1 h2)
        · exact Or.inr (h1.trans h2)

theorem strTailLE_total (ra rb ia ib : String) :
    (ra < rb ∨ (ra = rb ∧ (ia < ib ∨ ia = ib))) ∨
    (rb < ra ∨ (rb = ra ∧ (ib < ia ∨ ib = ia))) := by
  rcases lt_trichotomy ra rb with h | h | h
  · exact Or.inl (Or.inl h)
  · rcases lt_trichotomy ia ib with h2 | h2 | h2
    · exact Or.inl (Or.inr ⟨h, Or.inl h2⟩)
    · exact Or.inl (Or.inr ⟨h, Or.inr h2⟩)
    · exact Or.inr (Or.inr ⟨h.symm, Or.inl h2⟩)
  · exact Or.inr (Or.inl h)

theorem volumeKeyLE_trans (a b c : SeriesVolume)
    (h1 : volumeKeyLE a b) (h2 : volumeKeyLE b c) : volumeKeyLE a c := by
  rcases h1 with h1 | ⟨hr1, h1⟩
  · rcases h2 with h2 | ⟨hr2, h2⟩
    · exact Or.inl (by omega)
    · exact Or.inl (by omega)
  · rcases h2 with h2 | ⟨hr2, h2⟩
    · exact Or.inl (by omega)
    · refine Or.inr ⟨by omega, ?_⟩
      rcases h1 with h1 | ⟨hn1, h1⟩
      · rcases h2 with h2 | ⟨hn2, h2⟩
        · exact Or.inl (by omega)
        · exact Or.inl (by omega)
      · rcases h2 with h2 | ⟨hn2, h2⟩
        · exact Or.inl (by omega)
        · exact Or.inr ⟨by omega, strTailLE_trans _ _ _ _ _ _ h1 h2⟩

theorem volumeKeyLE_total (a b : SeriesVolume) :
    volumeKeyLE a b ∨ volumeKeyLE b a := by
  rcases Nat.lt_trichotomy (volumeKeyRank a) (volumeKeyRank b) with h | h | h
  · exact Or.inl (Or.inl h)
  · rcases Int.lt_trichotomy (volumeKeyNumber a) (volumeKeyNumber b) with
      h2 | h2 | h2
    · exact Or.inl (Or.inr ⟨h, Or.inl h2⟩)
    · rcases strTailLE_total a.registered_at b.registered_at a.isbn b.isbn with
        h3 | h3
      · exact Or.inl (Or.inr ⟨h, Or.inr ⟨h2, h3⟩⟩)
      · exact Or.inr (Or.inr ⟨h.symm, Or.inr ⟨h2.symm, h3⟩⟩)
    · exact Or.inr (Or.inr ⟨h.symm, Or.inl h2⟩)
  · exact Or.inr (Or.inl h)

theorem volumeKeyLE_antisymm_isbn (a b : SeriesVolume)
    (h1 : volumeKeyLE a b) (h2 : volumeKeyLE b a) : a.isbn = b.isbn := by
  rcases h1 with h1 | ⟨hr1, h1⟩ <;> rcases h2 with h2 | ⟨hr2, h2⟩
  · exact absurd h1 (by omega)
  · exact absurd h1 (by omega)
  · exact absurd h2 (by omega)
  · rcases h1 with h1 | ⟨hn1, h1⟩ <;> rcases h2 with h2 | ⟨hn2, h2⟩
    · exact absurd h1 (by omega)
    · exact absurd h1 (by omega)
    · exact absurd h2 (by omega)
    · rcases h1 with h1 | ⟨he1, h1⟩ <;> rcases h2 with h2 | ⟨he2, h2⟩
      · exact absurd h1 (lt_asymm h2)
      · exact absurd (lt_of_lt_of_eq h1 he2) (lt_irrefl _)
      · exact absurd (lt_of_lt_of_eq h2 he1) (lt_irrefl _)
      · rcases h1 with h1 | h1 <;> rcases h2 with h2 | h2
        · exact absurd h1 (lt_asymm h2)
        · exact absurd (lt_of_lt_of_eq h1 h2) (lt_irrefl _)
        · exact absurd (lt_of_lt_of_eq h2 h1) (lt_irrefl _)
        · exact h1

theorem foldl_jsMapSet_fresh (cur : List SeriesVolume) :
    ∀ m : List (String × SeriesVolume),
      (m.map Prod.fst ++ cur.map (fun w => w.isbn)).Nodup →
      cur.foldl (fun m v => jsMapSet m v.isbn v) m =
        m ++ cur.map (fun v => (v.isbn, v)) := by
  induction cur with
  | nil => intro m hm; simp
  | cons v rest ih =>
    intro m hm
    rw [List.foldl_cons]
    rw [List.map_cons] at hm
    have hfresh : ¬ ((m.any (fun p => p.1 = v.isbn)) = true) := by
      intro hany
      rw [List.any_eq_true] at hany
      obtain ⟨p, hp, hpk⟩ := hany
      have hk : v.isbn ∈ m.map Prod.fst :=
        List.mem_map.mpr ⟨p, hp, by simpa using hpk⟩
      rw [List.nodup_append] at hm
      exact hm.2.2 hk (by simp)
    have hset : jsMapSet m v.isbn v = m ++ [(v.isbn, v)] := by
      rw [jsMapSet, if_neg hfresh]
    rw [hset]
    have hm2 : ((m ++ [(v.isbn, v)]).map Prod.fst ++
        rest.map (fun w => w.isbn)).Nodup := by
      rw [List.map_append, List.append_assoc]
      simpa using hm
    rw [ih (m ++ [(v.isbn, v)]) hm2, List.append_assoc]
    simp

theorem mergeSeriesVolume_eq_sort_upsert (cur : List SeriesVolume)
    (v : SeriesVolume) (hnd : (cur.map (fun w => w.isbn)).Nodup) :
    mergeSeriesVolume cur v = sortSeriesVolumes (upsertVolume cur v) := by
  rw [mergeSeriesVolume]
  congr 1
  have hfold : cur.foldl (fun m v => jsMapSet m v.isbn v) [] =
      cur.map (fun w => (w.isbn, w)) := by
    have h := foldl_jsMapSet_fresh cur [] (by simpa using hnd)
    simpa using h
  rw [hfold, jsMapSet, upsertVolume]
  have hany : ∀ cs : List SeriesVolume,
      ((cs.map (fun w => (w.isbn, w))).any (fun p => p.1 = v.isbn)) =
        (cs.any (fun w => w.isbn = v.isbn)) := by
    intro cs
    induction cs with
    | nil => rfl
    | cons a t ih => simp [ih]
  rw [hany cur]
  by_cases hmem : cur.any (fun w => w.isbn = v.isbn) = true
  · rw [if_pos hmem, if_pos hmem, List.map_map, List.map_map]
    refine List.map_congr_left (fun w hw => ?_)
    by_cases hwk : w.isbn = v.isbn <;> simp [hwk]
  · rw [if_neg hmem, if_neg hmem, List.map_append, List.map_map]
    have hcomp : ((fun p : String × SeriesVolume => p.2) ∘
        fun w : SeriesVolume => (w.isbn, w)) = id := by
      funext w
      rfl
    rw [hcomp, List.map_id]
    rfl

/-- C5: `sortSeriesVolumes` returns a permutation of its input that is
pairwise ordered by ascending volume number with nulls last, then
ascending registration timestamp, then ascending identifier; this
order is total and resolves every tie between distinct identifiers;
and for lists with unique identifiers (the store invariant)
`mergeSeriesVolume` produces exactly the sorted upsert of the previous
list — the new volume is never appended unsorted. -/
theorem sortSeriesVolumes_mergeSeriesVolume_spec :
    (∀ l : List SeriesVolume, (sortSeriesVolumes l).Pairwise specVolumeLE) ∧
    (∀ l : List SeriesVolume, (sortSeriesVolumes l).Perm l) ∧
    (∀ a b : SeriesVolume, specVolumeLE a b ∨ specVolumeLE b a) ∧
    (∀ a b : SeriesVolume, specVolumeLE a b → specVolumeLE b a →
      a.isbn = b.isbn) ∧
    (∀ (cur : List SeriesVolume) (v : SeriesVolume),
      (cur.map (fun w => w.isbn)).Nodup →
      mergeSeriesVolume cur v = sortSeriesVolumes (upsertVolume cur v)) := by
  refine ⟨?_, ?_, ?_, ?_, mergeSeriesVolume_eq_sort_upsert⟩
  · intro l
    rw [sortSeriesVolumes]
    have htrans : ∀ a b c : SeriesVolume,
        volumeLE a b → volumeLE b c → volumeLE a c := by
      intro a b c hab hbc
      exact (volumeLE_iff_key a c).mpr
        (volumeKeyLE_trans a b c ((volumeLE_iff_key a b).mp hab)
          ((volumeLE_iff_key b c).mp hbc))
    have htotal : ∀ a b : SeriesVolume, volumeLE a b || volumeLE b a := by
      intro a b
      rw [Bool.or_eq_true]
      rcases volumeKeyLE_total a b with h | h
      · exact Or.inl ((volumeLE_iff_key a b).mpr h)
      · exact Or.inr ((volumeLE_iff_key b a).mpr h)
    exact (List.sorted_mergeSort htrans htotal l).imp
      (fun h => (volumeLE_iff_spec _ _).mp h)
  · intro l
    exact List.mergeSort_perm l volumeLE
  · intro a b
    rcases volumeKeyLE_total a b with h | h
    · exact Or.inl ((specVolumeLE_iff_key a b).mpr h)
    · exact Or.inr ((specVolumeLE_iff_key b a).mpr h)
  · intro a b h1 h2
    exact volumeKeyLE_antisymm_isbn a b ((specVolumeLE_iff_key a b).mp h1)
      ((specVolumeLE_iff_key b a).mp h2)

/-- First concrete volume of the C5 witness. -/
def c5VolA : SeriesVolume :=
  ⟨"9784088836440", some 2, none, "2024-01-01T00:00:00Z"⟩

/-- Second concrete volume of the C5 witness. -/
def c5VolB : SeriesVolume :=
  ⟨"9784088836441", some 1, none, "2024-01-02T00:00:00Z"⟩

/-- Witness for C5 at a concrete volume list. -/
theorem sortSeriesVolumes_mergeSeriesVolume_spec_witness :
    mergeSeriesVolume [c5VolA] c5VolB =
      sortSeriesVolumes (upsertVolume [c5VolA] c5VolB) :=
  sortSeriesVolumes_mergeSeriesVolume_spec.2.2.2.2 [c5VolA] c5VolB (by decide)

/-! ### Search tab: ownership reclassification and conflict handling -/

/-- The three-valued ownership status `true | false | "unknown"`. -/
inductive OwnedFlag
  | isOwned
  | isNotOwned
  | isUnknown
deriving DecidableEq

/-- Candidate record of `SearchTabPage.tsx` (its `isbn` is nullable). -/
structure CatalogSearchCandidate where
  owned : OwnedFlag
  title : String
  author : Option String
  publisher : Option String
  isbn : Option String
  volume_number : Option Int
  cover_url : Option String
deriving DecidableEq

/-- Feedback tone `"success" | "info" | "error"`. -/
inductive RegisterFeedbackTone
  | successTone
  | infoTone
  | errorTone
deriving DecidableEq

/-- Feedback record shown under a candidate. -/
structure RegisterFeedback where
  tone : RegisterFeedbackTone
  title : String
  message : String
deriving DecidableEq

def REGISTER_SUCCESS_MESSAGE : String := "登録完了"
def REGISTER_ALREADY_EXISTS_MESSAGE : String := "このISBNは既に登録済みです。"
def REGISTER_REQUEST_ERROR_MESSAGE : String := "登録リクエストの送信に失敗しました。"
def DEFAULT_REGISTER_ERROR_MESSAGE : String := "登録に失敗しました。"
def REGISTER_RESULT_SUCCESS_TITLE : String := "登録結果: 成功"
def REGISTER_RESULT_ALREADY_EXISTS_TITLE : String := "登録結果: 登録済み"
def REGISTER_RESULT_FAILURE_TITLE : String := "登録結果: 失敗"

/-- Embedding of `getCandidateKey` (`SearchTabPage.tsx`). -/
def getCandidateKey (candidate : CatalogSearchCandidate) (index : Nat) : String :=
  (candidate.isbn.getD "unknown") ++ "-" ++ toString index

/-- Index-carrying recursion of the `map` in `markCandidatesOwnedByIsbn`. -/
def markCandidatesOwnedAux (targetCandidateKey requestedIsbn : String)
    (matchedIsbn : Option String) :
    Nat → List CatalogSearchCandidate → List CatalogSearchCandidate
  | _, [] => []
  | currentIndex, currentCandidate :: rest =>
    (if getCandidateKey currentCandidate currentIndex = targetCandidateKey then
      { currentCandidate with owned := .isOwned }
    else if currentCandidate.isbn = some requestedIsbn ∨
        (matchedIsbn ≠ none ∧ currentCandidate.isbn = matchedIsbn) then
      { currentCandidate with owned := .isOwned }
    else currentCandidate) ::
      markCandidatesOwnedAux targetCandidateKey requestedIsbn matchedIsbn
        (currentIndex + 1) rest

/-- Embedding of `markCandidatesOwnedByIsbn` (`SearchTabPage.tsx`). -/
def markCandidatesOwnedByIsbn (currentCandidates : List CatalogSearchCandidate)
    (targetCandidateKey requestedIsbn : String) (matchedIsbn : Option String) :
    List CatalogSearchCandidate :=
  markCandidatesOwnedAux targetCandidateKey requestedIsbn matchedIsbn 0
    currentCandidates

/-- Outcome of the registration request of the search tab.  The fields
of `resp` model what the payload extractors of the source recover from
the response body: the error code, the conflict identifier from
`error.details.isbn`, the registered identifier from `volume.isbn`, the
series title, and the payload's error message. -/
inductive CatalogRegisterOutcome
  | threw
  | resp (statusCode : Nat) (errorCode : Option String)
      (conflictIsbn : Option String) (registeredIsbn : Option String)
      (registeredSeriesTitle : Option String)
      (payloadErrorMessage : Option String)
deriving DecidableEq

/-- Result of one `registerCandidate` call: the reclassified candidate
list (derived from the previous list, never refetched), the feedback
for the candidate's key, and whether the guards let the request run. -/
structure CatalogRegisterResult where
  candidates : List CatalogSearchCandidate
  feedback : Option RegisterFeedback
  acted : Bool
deriving DecidableEq

/-- The success message built by `registerCandidate`. -/
def registerSuccessMessage (registeredSeriesTitle : Option String)
    (registeredIsbn : String) : String :=
  match registeredSeriesTitle with
  | none => REGISTER_SUCCESS_MESSAGE ++ "（ISBN: " ++ registeredIsbn ++ "）"
  | some seriesTitle =>
    REGISTER_SUCCESS_MESSAGE ++ "（" ++ seriesTitle ++ " / ISBN: " ++
      registeredIsbn ++ "）"

/-- Model of `extractRegisterErrorMessage`: the payload's message when
present, otherwise the default with the status code. -/
def registerErrorMessage (payloadErrorMessage : Option String)
    (statusCode : Nat) : String :=
  payloadErrorMessage.getD
    (DEFAULT_REGISTER_ERROR_MESSAGE ++ " (status: " ++ toString statusCode ++ ")")

/-- Embedding of `registerCandidate` (`SearchTabPage.tsx`). -/
def registerCandidate (currentCandidates : List CatalogSearchCandidate)
    (candidate : CatalogSearchCandidate) (candidateKey : String)
    (registeringCandidateKey : Option String) (isRegisteringRef : Bool)
    (outcome : CatalogRegisterOutcome) : CatalogRegisterResult :=
  if candidate.owned ≠ .isNotOwned ∨ candidate.isbn = none ∨
      registeringCandidateKey ≠ none ∨ isRegisteringRef then
    ⟨currentCandidates, none, false⟩
  else
    match candidate.isbn with
    | none => ⟨currentCandidates, none, false⟩
    | some requestIsbn =>
      match outcome with
      | .threw =>
        ⟨currentCandidates,
          some ⟨.errorTone, REGISTER_RESULT_FAILURE_TITLE,
            REGISTER_REQUEST_ERROR_MESSAGE⟩,
          true⟩
      | .resp statusCode errorCode conflictIsbn registeredIsbn
          registeredSeriesTitle payloadErrorMessage =>
        if ¬ (200 ≤ statusCode ∧ statusCode < 300) then
          if statusCode = 409 ∧ errorCode = some "VOLUME_ALREADY_EXISTS" then
            ⟨markCandidatesOwnedByIsbn currentCandidates candidateKey
                requestIsbn conflictIsbn,
              some ⟨.infoTone, REGISTER_RESULT_ALREADY_EXISTS_TITLE,
                REGISTER_ALREADY_EXISTS_MESSAGE⟩,
              true⟩
          else
            ⟨currentCandidates,
              some ⟨.errorTone, REGISTER_RESULT_FAILURE_TITLE,
                registerErrorMessage payloadErrorMessage statusCode⟩,
              true⟩
        else
          ⟨markCandidatesOwnedByIsbn currentCandidates candidateKey
              requestIsbn (some (registeredIsbn.getD requestIsbn)),
            some ⟨.successTone, REGISTER_RESULT_SUCCESS_TITLE,
              registerSuccessMessage registeredSeriesTitle
                (registeredIsbn.getD requestIsbn)⟩,
            true⟩

theorem markCandidatesOwnedAux_length (targetKey requestedIsbn : String)
    (matchedIsbn : Option String) :
    ∀ (cands : List CatalogSearchCandidate) (start : Nat),
      (markCandidatesOwnedAux targetKey requestedIsbn matchedIsbn start
        cands).length = cands.length := by
  intro cands
  induction cands with
  | nil => intro start; rfl
  | cons a t ih =>
    intro start
    rw [markCandidatesOwnedAux, List.length_cons, List.length_cons, ih]

theorem markCandidatesOwnedAux_getElem (targetKey requestedIsbn : String)
    (matchedIsbn : Option String) :
    ∀ (cands : List CatalogSearchCandidate) (start i : Nat)
      (c : CatalogSearchCandidate), cands[i]? = some c →
      (markCandidatesOwnedAux targetKey requestedIsbn matchedIsbn start
          cands)[i]? =
        some (if getCandidateKey c (start + i) = targetKey then
            { c with owned := .isOwned }
          else if c.isbn = some requestedIsbn ∨
              (matchedIsbn ≠ none ∧ c.isbn = matchedIsbn) then
            { c with owned := .isOwned }
          else c) := by
  intro cands
  induction cands with
  | nil => intro start i c h; simp at h
  | cons a t ih =>
    intro start i c h
    cases i with
    | zero =>
      simp only [List.getElem?_cons_zero, Option.some_inj] at h
      subst h
      rw [markCandidatesOwnedAux]
      simp
    | succ j =>
      rw [markCandidatesOwnedAux]
      simp only [List.getElem?_cons_succ] at h ⊢
      rw [show start + (j + 1) = start + 1 + j from by omega]
      exact ih (start + 1) j c h

/-- C10: `markCandidatesOwnedByIsbn` keeps the length and order of the
list; a candidate whose key is not the target and whose identifier
matches neither the requested nor the conflict-reported identifier is
returned with all fields unchanged; and every candidate is returned
either unchanged or with only its `owned` field changed, to `true` —
never to `false` or `unknown`, and never with any other field
altered. -/
theorem markCandidatesOwnedByIsbn_frame
    (cands : List CatalogSearchCandidate) (targetKey requestedIsbn : String)
    (matchedIsbn : Option String) :
    (markCandidatesOwnedByIsbn cands targetKey requestedIsbn
        matchedIsbn).length = cands.length ∧
    (∀ i c, cands[i]? = some c →
      ((markCandidatesOwnedByIsbn cands targetKey requestedIsbn
            matchedIsbn)[i]? = some c ∨
        (markCandidatesOwnedByIsbn cands targetKey requestedIsbn
            matchedIsbn)[i]? = some { c with owned := .isOwned }) ∧
      (getCandidateKey c i ≠ targetKey → c.isbn ≠ some requestedIsbn →
        ¬ (matchedIsbn ≠ none ∧ c.isbn = matchedIsbn) →
        (markCandidatesOwnedByIsbn cands targetKey requestedIsbn
            matchedIsbn)[i]? = some c)) := by
  constructor
  · exact markCandidatesOwnedAux_length targetKey requestedIsbn matchedIsbn
      cands 0
  · intro i c h
    have hg := markCandidatesOwnedAux_getElem targetKey requestedIsbn
      matchedIsbn cands 0 i c h
    rw [Nat.zero_add] at hg
    rw [markCandidatesOwnedByIsbn]
    constructor
    · rw [hg]
      by_cases h1 : getCandidateKey c i = targetKey
      · rw [if_pos h1]
        exact Or.inr rfl
      · rw [if_neg h1]
        by_cases h2 : c.isbn = some requestedIsbn ∨
            (matchedIsbn ≠ none ∧ c.isbn = matchedIsbn)
        · rw [if_pos h2]
          exact Or.inr rfl
        · rw [if_neg h2]
          exact Or.inl rfl
    · intro hk hr hm
      rw [hg, if_neg hk, if_neg ?_]
      rintro (h2 | h2)
      · exact hr h2
      · exact hm h2

/-- Witness for C10 at a concrete untouched candidate. -/
theorem markCandidatesOwnedByIsbn_frame_witness :
    (markCandidatesOwnedByIsbn
        [⟨.isNotOwned, "T", none, none, some "9784088836441", some 1, none⟩]
        "9784088836440-0" "9784088836440" none)[0]? =
      some ⟨.isNotOwned, "T", none, none, some "9784088836441", some 1, none⟩ :=
  ((markCandidatesOwnedByIsbn_frame
      [⟨.isNotOwned, "T", none, none, some "9784088836441", some 1, none⟩]
      "9784088836440-0" "9784088836440" none).2 0
    ⟨.isNotOwned, "T", none, none, some "9784088836441", some 1, none⟩
    (by decide)).2 (by decide) (by decide) (by decide)

/-- C7: on a storage conflict (HTTP 409 with code
`VOLUME_ALREADY_EXISTS`), registering from the search tab produces an
informational (not error) feedback and reclassifies ownership on the
previous candidate list itself, marking as owned the submitted
candidate and every candidate whose identifier matches the requested or
the conflict-reported identifier, with the list length unchanged. -/
theorem registerCandidate_conflict (cands : List CatalogSearchCandidate)
    (candidate : CatalogSearchCandidate) (candidateKey requestIsbn : String)
    (conflictIsbn registeredIsbn registeredSeriesTitle
      payloadErrorMessage : Option String)
    (howned : candidate.owned = .isNotOwned)
    (hisbn : candidate.isbn = some requestIsbn) :
    registerCandidate cands candidate candidateKey none false
        (.resp 409 (some "VOLUME_ALREADY_EXISTS") conflictIsbn registeredIsbn
          registeredSeriesTitle payloadErrorMessage) =
      ⟨markCandidatesOwnedByIsbn cands candidateKey requestIsbn conflictIsbn,
        some ⟨.infoTone, REGISTER_RESULT_ALREADY_EXISTS_TITLE,
          REGISTER_ALREADY_EXISTS_MESSAGE⟩,
        true⟩ ∧
    RegisterFeedbackTone.infoTone ≠ RegisterFeedbackTone.errorTone ∧
    (registerCandidate cands candidate candidateKey none false
        (.resp 409 (some "VOLUME_ALREADY_EXISTS") conflictIsbn registeredIsbn
          registeredSeriesTitle payloadErrorMessage)).candidates.length =
      cands.length ∧
    (∀ i c, cands[i]? = some c →
      (getCandidateKey c i = candidateKey ∨ c.isbn = some requestIsbn ∨
        (conflictIsbn ≠ none ∧ c.isbn = conflictIsbn)) →
      (registerCandidate cands candidate candidateKey none false
          (.resp 409 (some "VOLUME_ALREADY_EXISTS") conflictIsbn registeredIsbn
            registeredSeriesTitle payloadErrorMessage)).candidates[i]? =
        some { c with owned := .isOwned }) := by
  have hres : registerCandidate cands candidate candidateKey none false
      (.resp 409 (some "VOLUME_ALREADY_EXISTS") conflictIsbn registeredIsbn
        registeredSeriesTitle payloadErrorMessage) =
      ⟨markCandidatesOwnedByIsbn cands candidateKey requestIsbn conflictIsbn,
        some ⟨.infoTone, REGISTER_RESULT_ALREADY_EXISTS_TITLE,
          REGISTER_ALREADY_EXISTS_MESSAGE⟩,
        true⟩ := by
    rw [registerCandidate, if_neg ?_]
    · rw [hisbn]
      simp
    · simp [howned, hisbn]
  refine ⟨hres, by simp, ?_, ?_⟩
  · rw [hres]
    exact markCandidatesOwnedAux_length candidateKey requestIsbn conflictIsbn
      cands 0
  · intro i c h hcond
    rw [hres]
    show (markCandidatesOwnedByIsbn cands candidateKey requestIsbn
      conflictIsbn)[i]? = some { c with owned := .isOwned }
    rw [markCandidatesOwnedByIsbn]
    have hg := markCandidatesOwnedAux_getElem candidateKey requestIsbn
      conflictIsbn cands 0 i c h
    rw [Nat.zero_add] at hg
    rw [hg]
    by_cases h1 : getCandidateKey c i = candidateKey
    · rw [if_pos h1]
    · rw [if_neg h1]
      rcases hcond with hc | hc | hc
      · exact absurd hc h1
      · rw [if_pos (Or.inl hc)]
      · rw [if_pos (Or.inr hc)]

/-- The candidate of the C7 witness. -/
def c7Candidate : CatalogSearchCandidate :=
  ⟨.isNotOwned, "T", none, none, some "9784088836440", some 1, none⟩

/-- Witness for C7 at a concrete candidate and conflict response. -/
theorem registerCandidate_conflict_witness :
    registerCandidate [c7Candidate] c7Candidate "9784088836440-0"
        none false
        (.resp 409 (some "VOLUME_ALREADY_EXISTS") none none none none) =
      ⟨markCandidatesOwnedByIsbn [c7Candidate] "9784088836440-0"
          "9784088836440" none,
        some ⟨.infoTone, REGISTER_RESULT_ALREADY_EXISTS_TITLE,
          REGISTER_ALREADY_EXISTS_MESSAGE⟩,
        true⟩ :=
  (registerCandidate_conflict [c7Candidate] c7Candidate "9784088836440-0"
    "9784088836440" none none none none rfl rfl).1
